import Mathlib

/-!
# Verification of the comic-snaps presentation core

Shallow embedding of the three core algorithms of the repository:

* `src/filtering.ts`  — facet & filter engine (`applyFilters`, `computeFacets`)
* `src/sorting.ts`    — similarity & order engine (`sortPanels` and helpers)
* `src/components/MasonryGrid.tsx` — masonry packer (`computeLayout`)

Modelling conventions:

* JS numbers used for geometry, colorfulness and counts are modelled as `ℚ`
  (all operations performed on them in the source are field operations).
* `addedAt` is stored in the source as an ISO-8601 string and is only ever
  consumed through `new Date(s).getTime()`; we model the field directly as the
  resulting timestamp (`ℤ`), which is order-isomorphic to the strings used.
* CIELAB color coordinates feed `Math.atan2`, so they are modelled as `ℝ`,
  with `atan2 y x = Complex.arg (x + y*I)`.
* JS `Array.prototype.sort` with a consistent comparator `c` is a stable sort
  for the total preorder `c a b ≤ 0`; it is modelled as `List.mergeSort`
  (stable) with the boolean relation `le a b := c a b ≤ 0`.
* The JS number `Infinity`, used only as an "unbounded sort key", is modelled
  by `Option` with `none` playing the role of `Infinity`.
-/

/-- A gallery panel record (`src/types.ts`, interface `Panel`).
`addedAt` is the `getTime()` value of the stored timestamp string. -/
structure Panel where
  id : String
  title : String
  slug : String
  issue : ℤ
  year : ℤ
  artist : String
  image : String
  notes : Option String
  tags : List String
  postedBy : String
  addedAt : ℤ
  height : ℚ
  width : ℚ
  phash : String
  ahash : String
  dhash : String
  dominantColors : Option (List (ℝ × ℝ × ℝ))
  colorfulness : Option ℚ

/-! ## Facet & filter engine — `src/filtering.ts` -/

/-- Filter selection: four independent dimensions, each a set of labels
(`src/filtering.ts`, interface `Filters`). -/
structure Filters where
  decades : Finset String
  tags : Finset String
  artists : Finset String
  postedBy : Finset String

/-- `EMPTY_FILTERS` (`src/filtering.ts`). -/
def EMPTY_FILTERS : Filters := ⟨∅, ∅, ∅, ∅⟩

/-- `hasActiveFilters` (`src/filtering.ts:17`): some dimension has `size > 0`. -/
def hasActiveFilters (f : Filters) : Prop :=
  f.decades ≠ ∅ ∨ f.tags ≠ ∅ ∨ f.artists ≠ ∅ ∨ f.postedBy ≠ ∅

instance : DecidablePred hasActiveFilters := fun f => by
  unfold hasActiveFilters; infer_instance

/-- `getDecade` (`src/filtering.ts:25`): `` `${Math.floor(year/10)*10}s` ``.
`Math.floor` of the real quotient is flooring division `Int.fdiv`. -/
def getDecade (year : ℤ) : String :=
  toString (year.fdiv 10 * 10) ++ "s"

/-- The predicate of the `panels.filter` callback in `applyFilters`
(`src/filtering.ts:32-41`), with the early-`false` returns written as a
cascade of conditionals exactly as in the source. -/
def passesFilters (f : Filters) (p : Panel) : Bool :=
  if f.decades ≠ ∅ ∧ getDecade p.year ∉ f.decades then false
  else if f.artists ≠ ∅ ∧ p.artist ∉ f.artists then false
  else if f.postedBy ≠ ∅ ∧ p.postedBy ∉ f.postedBy then false
  else if f.tags ≠ ∅ ∧ ¬ ∃ t ∈ p.tags, t ∈ f.tags then false
  else true

/-- `applyFilters` (`src/filtering.ts:30-42`). -/
def applyFilters (panels : List Panel) (f : Filters) : List Panel :=
  if hasActiveFilters f then panels.filter (passesFilters f) else panels

/-- `passArtist` in `computeFacets` (`src/filtering.ts:51`). -/
def passArtist (f : Filters) (p : Panel) : Prop :=
  f.artists = ∅ ∨ p.artist ∈ f.artists

/-- `passTags` in `computeFacets` (`src/filtering.ts:52`). -/
def passTags (f : Filters) (p : Panel) : Prop :=
  f.tags = ∅ ∨ ∃ t ∈ p.tags, t ∈ f.tags

/-- `passDecade` in `computeFacets` (`src/filtering.ts:53`). -/
def passDecade (f : Filters) (p : Panel) : Prop :=
  f.decades = ∅ ∨ getDecade p.year ∈ f.decades

/-- `passPostedBy` in `computeFacets` (`src/filtering.ts:54`). -/
def passPostedBy (f : Filters) (p : Panel) : Prop :=
  f.postedBy = ∅ ∨ p.postedBy ∈ f.postedBy

instance (f : Filters) (p : Panel) : Decidable (passArtist f p) := by
  unfold passArtist; infer_instance
instance (f : Filters) (p : Panel) : Decidable (passTags f p) := by
  unfold passTags; infer_instance
instance (f : Filters) (p : Panel) : Decidable (passDecade f p) := by
  unfold passDecade; infer_instance
instance (f : Filters) (p : Panel) : Decidable (passPostedBy f p) := by
  unfold passPostedBy; infer_instance

/-- The four count tables built by `computeFacets`; a JS `Map` read through
`map.get(k) ?? 0` is modelled as a total function `String → ℕ` that is `0`
outside the inserted keys. -/
structure FacetCounts where
  decadeCounts : String → ℕ
  tagCounts : String → ℕ
  artistCounts : String → ℕ
  postedByCounts : String → ℕ

/-- `map.set(k, (map.get(k) ?? 0) + 1)` (`src/filtering.ts:58` and friends). -/
def bump (m : String → ℕ) (k : String) : String → ℕ :=
  fun x => if x = k then m k + 1 else m x

/-- One iteration of the `for (const p of panels)` loop of `computeFacets`
(`src/filtering.ts:50-71`). -/
def facetStep (f : Filters) (acc : FacetCounts) (p : Panel) : FacetCounts where
  decadeCounts :=
    if passArtist f p ∧ passTags f p ∧ passPostedBy f p then
      bump acc.decadeCounts (getDecade p.year)
    else acc.decadeCounts
  tagCounts :=
    if passArtist f p ∧ passDecade f p ∧ passPostedBy f p then
      p.tags.foldl bump acc.tagCounts
    else acc.tagCounts
  artistCounts :=
    if passTags f p ∧ passDecade f p ∧ passPostedBy f p then
      bump acc.artistCounts p.artist
    else acc.artistCounts
  postedByCounts :=
    if passTags f p ∧ passDecade f p ∧ passArtist f p then
      bump acc.postedByCounts p.postedBy
    else acc.postedByCounts

/-- `computeFacets` (`src/filtering.ts:44-74`). -/
def computeFacets (panels : List Panel) (f : Filters) : FacetCounts :=
  panels.foldl (facetStep f) ⟨fun _ => 0, fun _ => 0, fun _ => 0, fun _ => 0⟩

/-! ## Similarity & order engine — `src/sorting.ts` -/

/-- `SortMode` (`src/sorting.ts:3`). -/
inductive SortMode where
  | newest | oldest | phash | ahash | dhash | color
deriving DecidableEq

/-- `COLORFULNESS_THRESHOLD` (`src/sorting.ts:17`). -/
def COLORFULNESS_THRESHOLD : ℚ := 5

/-- The value of one hex digit as used by `parseInt(c, 16)`; any character
that is not a hex digit yields `NaN`, which the bitwise `^` then coerces to
`0` (`ToInt32(NaN) = 0`), so it behaves as `0`. -/
def hexVal (c : Char) : ℕ :=
  if '0' ≤ c ∧ c ≤ '9' then c.toNat - '0'.toNat
  else if 'a' ≤ c ∧ c ≤ 'f' then c.toNat - 'a'.toNat + 10
  else if 'A' ≤ c ∧ c ≤ 'F' then c.toNat - 'A'.toNat + 10
  else 0

/-- The inner `while (xor) { dist += xor & 1; xor >>= 1 }` popcount loop of
`hammingDistanceHex` (`src/sorting.ts:38-41`), with explicit fuel: the loop
halves `n` each round, so `n` rounds always suffice. -/
def popBitsAux : ℕ → ℕ → ℕ
  | 0, _ => 0
  | fuel + 1, n => if n = 0 then 0 else n % 2 + popBitsAux fuel (n / 2)

/-- Number of set bits of a natural number (the popcount loop). -/
def popBits (n : ℕ) : ℕ := popBitsAux n n

/-- `hammingDistanceHex` (`src/sorting.ts:31-44`): nibble-by-nibble XOR
popcount over the longer string's length, `a[i] ?? "0"` modelled by
`List.getD _ _ '0'`. -/
def hammingDistanceHex (a b : String) : ℕ :=
  (List.range (max a.length b.length)).foldl
    (fun dist i =>
      dist + popBits (hexVal (a.data.getD i '0') ^^^ hexVal (b.data.getD i '0')))
    0

/-- The inner scan of one step of the nearest-neighbour loop
(`src/sorting.ts:134-143`): scanning candidates in order and keeping the
strictly better one returns the *first* candidate of minimum key, here
together with the remaining candidates in their original order. -/
def pickNearest {α : Type} (d : α → ℕ) : List α → Option (α × List α)
  | [] => none
  | x :: xs =>
    match pickNearest d xs with
    | none => some (x, [])
    | some (y, ys) => if d y < d x then some (y, x :: ys) else some (x, xs)

/-- The `for (let step = 1; step < withHash.length; step++)` loop of the hash
sorts (`src/sorting.ts:132-148`): repeatedly append the unvisited panel
nearest (by `hammingDistanceHex` on the selected hash) to the panel placed
last.  The fuel is the number of steps the loop performs. -/
def nnChain (h : Panel → String) : ℕ → Panel → List Panel → List Panel
  | 0, _, _ => []
  | fuel + 1, cur, rest =>
    match pickNearest (fun q => hammingDistanceHex (h cur) (h q)) rest with
    | none => []
    | some (y, ys) => y :: nnChain h fuel y ys

/-- Comparator of the `newest` sort (`src/sorting.ts:96-98`):
`b.addedAt - a.addedAt ≤ 0`. -/
def newestLe (a b : Panel) : Bool := decide (b.addedAt ≤ a.addedAt)

/-- Comparator of the `oldest` sort and of the missing-hash tail
(`src/sorting.ts:100-103` and `120-122`): `a.addedAt - b.addedAt ≤ 0`. -/
def oldestLe (a b : Panel) : Bool := decide (a.addedAt ≤ b.addedAt)

/-- `p[hashKey]` truthiness (`src/sorting.ts:117`): the hash string is
non-empty. -/
def hasHashB (h : Panel → String) (p : Panel) : Bool := !(h p == "")

/-- The `phash`/`ahash`/`dhash` branch of `sortPanels`
(`src/sorting.ts:105-151`), parameterized by the selected hash field. -/
def hashSort (panels : List Panel) (h : Panel → String) : List Panel :=
  if panels.length ≤ 1 then panels
  else
    let parts := panels.partition (hasHashB h)
    let woSorted := parts.2.mergeSort oldestLe
    match parts.1 with
    | [] => woSorted
    | x :: rest => x :: (nnChain h rest.length x rest ++ woSorted)

/-- `atan2 y x` as used by `Math.atan2` on finite inputs: the argument of the
complex number `x + y*I`. -/
noncomputable def atan2 (y x : ℝ) : ℝ := Complex.arg ⟨x, y⟩

/-- `colorSortKey` (`src/sorting.ts:81-89`).  The JS function returns
`Infinity` when the panel has no dominant color; `Infinity` is modelled as
`none`. -/
noncomputable def colorSortKey (p : Panel) : Option ℝ :=
  match p.dominantColors with
  | none => none
  | some [] => none
  | some (c :: _) =>
    let hue := atan2 c.2.2 c.2.1
    let hueNorm := if hue < 0 then hue + 2 * Real.pi else hue
    some (hueNorm * 1000 + c.1)

/-- The `byColor` comparator (`src/sorting.ts:171-179`) as the relation
`byColor a b ≤ 0`, with `Infinity` modelled as `none`:
both keys `Infinity` → compare `addedAt`; exactly one `Infinity` → it is
larger; both finite → key order, `addedAt` on exact key equality. -/
def colorLeP (a b : Panel) : Prop :=
  match colorSortKey a, colorSortKey b with
  | none, none => a.addedAt ≤ b.addedAt
  | none, some _ => False
  | some _, none => True
  | some ka, some kb => ka < kb ∨ (ka = kb ∧ a.addedAt ≤ b.addedAt)

noncomputable def colorLe (a b : Panel) : Bool :=
  @decide (colorLeP a b) (Classical.propDecidable _)

/-- `(p.colorfulness ?? 0) >= COLORFULNESS_THRESHOLD` (`src/sorting.ts:161`). -/
def chromaticB (p : Panel) : Bool :=
  decide (COLORFULNESS_THRESHOLD ≤ p.colorfulness.getD 0)

/-- The `color` branch of `sortPanels` (`src/sorting.ts:153-185`). -/
noncomputable def colorSort (panels : List Panel) : List Panel :=
  if panels.length ≤ 1 then panels
  else
    let parts := panels.partition chromaticB
    parts.1.mergeSort colorLe ++ parts.2.mergeSort colorLe

/-- `sortPanels` (`src/sorting.ts:91-190`). -/
noncomputable def sortPanels (panels : List Panel) (mode : SortMode) : List Panel :=
  match mode with
  | .newest => panels.mergeSort newestLe
  | .oldest => panels.mergeSort oldestLe
  | .phash => hashSort panels (·.phash)
  | .ahash => hashSort panels (·.ahash)
  | .dhash => hashSort panels (·.dhash)
  | .color => colorSort panels

/-- The hash field selected by a hash sort mode (`src/sorting.ts:109`). -/
def hashFieldOf : SortMode → Panel → String
  | .phash => (·.phash)
  | .ahash => (·.ahash)
  | .dhash => (·.dhash)
  | _ => fun _ => ""

/-! ## Masonry packer — `src/components/MasonryGrid.tsx` -/

/-- `GAP` (`MasonryGrid.tsx:10`). -/
def GAP : ℚ := 4

/-- `DEFAULT_ASPECT` (`MasonryGrid.tsx:11`). -/
def DEFAULT_ASPECT : ℚ := 3 / 4

/-- `WIDE_THRESHOLD` (`MasonryGrid.tsx:17`), `1.2`. -/
def WIDE_THRESHOLD : ℚ := 6 / 5

/-- `getAspect` (`MasonryGrid.tsx:26-31`): `width/height` when both are
positive, else the 3:4 default.  (The JS truthiness tests `panel.width &&
panel.height` are subsumed by the positivity tests.) -/
def getAspect (p : Panel) : ℚ :=
  if 0 < p.width ∧ 0 < p.height then p.width / p.height else DEFAULT_ASPECT

/-- `isWide` (`MasonryGrid.tsx:33-35`). -/
def isWide (p : Panel) : Prop := WIDE_THRESHOLD ≤ getAspect p

instance (p : Panel) : Decidable (isWide p) := by unfold isWide; infer_instance

/-- `PlacedItem` (`MasonryGrid.tsx:41-58`): a placed panel (no explicit
height) or a synthetic filler block. -/
inductive PlacedItem where
  | panel (panel : Panel) (x y w : ℚ)
  | filler (key : String) (x y w h : ℚ)

/-- x-coordinate of a placed item. -/
def PlacedItem.xPos : PlacedItem → ℚ
  | .panel _ x _ _ => x
  | .filler _ x _ _ _ => x

/-- y-coordinate of a placed item. -/
def PlacedItem.yPos : PlacedItem → ℚ
  | .panel _ _ y _ => y
  | .filler _ _ y _ _ => y

/-- The panel carried by a placed item, if any. -/
def PlacedItem.panelOf : PlacedItem → Option Panel
  | .panel p _ _ _ => some p
  | .filler _ _ _ _ _ => none

/-- `colX` (`MasonryGrid.tsx:71`). -/
def colX (colWidth : ℚ) (col : ℕ) : ℚ := col * (colWidth + GAP)

/-- `heights[i]` reads; `initialHeights` always has `colCount` entries at the
call sites, so the default `0` is never observable there. -/
def hAt (heights : List ℚ) (i : ℕ) : ℚ := heights.getD i 0

/-- First index below `n` minimising `g`, found by a left-to-right scan that
replaces the current best only on a strict improvement.  This is the shape of
both selection loops of `computeLayout` (`MasonryGrid.tsx:85-92` with
`bestMaxH` initialised to `Infinity`, so the first candidate always wins, and
`MasonryGrid.tsx:139-146` with the initial best `heights[0]`). -/
def minIdx (g : ℕ → ℚ) (n : ℕ) : ℕ :=
  (List.range n).foldl (fun best i => if g i < g best then i else best) 0

/-- `Math.max(heights[s], heights[s+1])` for the adjacent column pair at `s`
(`MasonryGrid.tsx:87`). -/
def pairMax (heights : List ℚ) (t : ℕ) : ℚ := max (hAt heights t) (hAt heights (t + 1))

/-- The adjacent-pair selection loop (`MasonryGrid.tsx:84-92`): the first
start index `s ≤ colCount - 2` whose pair maximum is smallest. -/
def bestPairStart (heights : List ℚ) (colCount : ℕ) : ℕ :=
  minIdx (pairMax heights) (colCount - 1)

/-- The layout state threaded through the `for` loop of `computeLayout`:
the per-column `heights` array and the `items` accumulated so far. -/
structure LayoutState where
  heights : List ℚ
  items : List PlacedItem

/-- One iteration of the `for (let idx = 0; ...)` loop of `computeLayout`
(`MasonryGrid.tsx:75-165`). -/
def layoutStep (colCount : ℕ) (colWidth : ℚ) (st : LayoutState)
    (ip : ℕ × Panel) : LayoutState :=
  let idx := ip.1
  let panel := ip.2
  let aspect := getAspect panel
  if isWide panel ∧ 2 ≤ colCount then
    -- wide panel: spans two adjacent columns (MasonryGrid.tsx:80-136)
    let s := bestPairStart st.heights colCount
    let h1 := hAt st.heights s
    let h2 := hAt st.heights (s + 1)
    let tallest := max h1 h2
    let fillers : List PlacedItem :=
      (if h1 < tallest then
        [.filler ("filler-" ++ panel.id ++ "-L") (colX colWidth s) h1 colWidth (tallest - h1)]
      else []) ++
      (if h2 < tallest then
        [.filler ("filler-" ++ panel.id ++ "-R") (colX colWidth (s + 1)) h2 colWidth (tallest - h2)]
      else [])
    let spanW := colWidth * 2 + GAP
    let panelH := spanW / aspect
    let newH := tallest + panelH + GAP
    { heights := (st.heights.set s newH).set (s + 1) newH,
      items := st.items ++ fillers ++ [.panel panel (colX colWidth s) tallest spanW] }
  else
    -- normal panel: shortest column, pin of the very first panel
    -- (MasonryGrid.tsx:137-164)
    let t0 := minIdx (fun i => hAt st.heights i) colCount
    let renderedH := colWidth / aspect
    let targetCol := if idx = 0 ∧ hAt st.heights 0 - hAt st.heights t0 ≤ renderedH then 0 else t0
    { heights := st.heights.set targetCol (hAt st.heights targetCol + renderedH + GAP),
      items := st.items ++ [.panel panel (colX colWidth targetCol) (hAt st.heights targetCol) colWidth] }

/-- `colWidth` (`MasonryGrid.tsx:70`). -/
def colWidthOf (colCount : ℕ) (containerWidth : ℚ) : ℚ :=
  (containerWidth - GAP * ((colCount : ℚ) - 1)) / (colCount : ℚ)

/-- The whole loop of `computeLayout`, returning the final loop state (the
placed items together with the final column heights). -/
def computeLayoutState (panels : List Panel) (colCount : ℕ) (containerWidth : ℚ)
    (initialHeights : List ℚ) : LayoutState :=
  panels.enum.foldl (layoutStep colCount (colWidthOf colCount containerWidth))
    ⟨initialHeights, []⟩

/-- `computeLayout` (`MasonryGrid.tsx:64-169`): the placed items and the
total height `Math.max(...heights, 0)`. -/
def computeLayout (panels : List Panel) (colCount : ℕ) (containerWidth : ℚ)
    (initialHeights : List ℚ) : List PlacedItem × ℚ :=
  let st := computeLayoutState panels colCount containerWidth initialHeights
  (st.items, st.heights.foldr max 0)

/-! ## Helper lemmas: filtering -/

theorem passesFilters_iff (f : Filters) (p : Panel) :
    passesFilters f p = true ↔
      (passDecade f p ∧ passTags f p ∧ passArtist f p ∧ passPostedBy f p) := by
  unfold passesFilters passDecade passTags passArtist passPostedBy
  split_ifs with h1 h2 h3 h4
  all_goals simp_all
  all_goals tauto

theorem bump_apply (m : String → ℕ) (k x : String) :
    bump m k x = m x + if x = k then 1 else 0 := by
  unfold bump
  by_cases h : x = k <;> simp [h]

theorem foldl_bump_tags (tags : List String) (m : String → ℕ) (lab : String) :
    (tags.foldl bump m) lab = m lab + tags.count lab := by
  induction tags generalizing m with
  | nil => simp
  | cons t ts ih =>
    by_cases h : lab = t
    · subst h
      rw [List.foldl_cons, ih, List.count_cons_self, bump_apply, if_pos rfl]
      omega
    · rw [List.foldl_cons, ih, List.count_cons_of_ne h, bump_apply, if_neg h]
      omega

theorem foldl_bump_count (l : List Panel) (c : Panel → Prop) [DecidablePred c]
    (key : Panel → String) (m : String → ℕ) (lab : String) :
    (l.foldl (fun acc p => if c p then bump acc (key p) else acc) m) lab
      = m lab + (l.filter (fun p => decide (c p ∧ key p = lab))).length := by
  induction l generalizing m with
  | nil => simp
  | cons p l ih =>
    rw [List.foldl_cons, ih, List.filter_cons]
    by_cases hc : c p
    · by_cases hk : key p = lab
      · rw [if_pos hc, bump_apply, if_pos hk.symm]
        have hd : decide (c p ∧ key p = lab) = true := by simp [hc, hk]
        simp only [hd, if_true, List.length_cons]
        omega
      · rw [if_pos hc, bump_apply, if_neg (fun h => hk h.symm)]
        simp [hc, hk]
    · rw [if_neg hc]
      simp [hc]

theorem foldl_bumpTags_count (l : List Panel) (c : Panel → Prop) [DecidablePred c]
    (m : String → ℕ) (lab : String) :
    (l.foldl (fun acc p => if c p then p.tags.foldl bump acc else acc) m) lab
      = m lab + ((l.filter (fun p => decide (c p))).map (fun p => p.tags.count lab)).sum := by
  induction l generalizing m with
  | nil => simp
  | cons p l ih =>
    simp only [List.foldl_cons, List.filter_cons, ih]
    by_cases hc : c p
    all_goals simp [hc, foldl_bump_tags]
    all_goals omega

theorem facets_decade_proj (panels : List Panel) (f : Filters) (A : FacetCounts) :
    (panels.foldl (facetStep f) A).decadeCounts
      = panels.foldl
          (fun m p =>
            if passArtist f p ∧ passTags f p ∧ passPostedBy f p then
              bump m (getDecade p.year)
            else m)
          A.decadeCounts := by
  induction panels generalizing A with
  | nil => rfl
  | cons p l ih => simp only [List.foldl_cons, ih]; rfl

theorem facets_tag_proj (panels : List Panel) (f : Filters) (A : FacetCounts) :
    (panels.foldl (facetStep f) A).tagCounts
      = panels.foldl
          (fun m p =>
            if passArtist f p ∧ passDecade f p ∧ passPostedBy f p then
              p.tags.foldl bump m
            else m)
          A.tagCounts := by
  induction panels generalizing A with
  | nil => rfl
  | cons p l ih => simp only [List.foldl_cons, ih]; rfl

theorem facets_artist_proj (panels : List Panel) (f : Filters) (A : FacetCounts) :
    (panels.foldl (facetStep f) A).artistCounts
      = panels.foldl
          (fun m p =>
            if passTags f p ∧ passDecade f p ∧ passPostedBy f p then
              bump m p.artist
            else m)
          A.artistCounts := by
  induction panels generalizing A with
  | nil => rfl
  | cons p l ih => simp only [List.foldl_cons, ih]; rfl

theorem facets_postedBy_proj (panels : List Panel) (f : Filters) (A : FacetCounts) :
    (panels.foldl (facetStep f) A).postedByCounts
      = panels.foldl
          (fun m p =>
            if passTags f p ∧ passDecade f p ∧ passArtist f p then
              bump m p.postedBy
            else m)
          A.postedByCounts := by
  induction panels generalizing A with
  | nil => rfl
  | cons p l ih => simp only [List.foldl_cons, ih]; rfl

/-! ## Claim C6 — `applyFilters` -/

/-- **C6.** `applyFilters` keeps exactly the panels satisfying all active
dimensions (AND across the decade, tag, artist and postedBy dimensions; a
dimension with an empty selection imposes no restriction; within the tag
dimension a panel passes iff it has at least one selected tag).  The output
is a subsequence of the input (hence preserves relative order), and when no
dimension is active the input is returned unchanged. -/
theorem c6_applyFilters (panels : List Panel) (f : Filters) :
    applyFilters panels f
      = panels.filter (fun p =>
          decide (passDecade f p ∧ passTags f p ∧ passArtist f p ∧ passPostedBy f p))
  ∧ (applyFilters panels f).Sublist panels
  ∧ (¬ hasActiveFilters f → applyFilters panels f = panels) := by
  have hpt : ∀ p, passesFilters f p
      = decide (passDecade f p ∧ passTags f p ∧ passArtist f p ∧ passPostedBy f p) := by
    intro p
    by_cases hp : passDecade f p ∧ passTags f p ∧ passArtist f p ∧ passPostedBy f p
    · simp [hp, (passesFilters_iff f p).2 hp]
    · have hfalse : ¬ passesFilters f p = true := fun h => hp ((passesFilters_iff f p).1 h)
      rw [Bool.not_eq_true] at hfalse
      simp [hfalse, hp]
  by_cases hA : hasActiveFilters f
  · unfold applyFilters
    rw [if_pos hA]
    exact ⟨List.filter_congr (fun p _ => hpt p), List.filter_sublist _,
      fun h => absurd hA h⟩
  · unfold applyFilters
    rw [if_neg hA]
    have hempty : f.decades = ∅ ∧ f.tags = ∅ ∧ f.artists = ∅ ∧ f.postedBy = ∅ := by
      unfold hasActiveFilters at hA
      tauto
    refine ⟨?_, List.Sublist.refl _, fun _ => rfl⟩
    symm
    apply List.filter_eq_self.2
    intro p _
    simp [passDecade, passTags, passArtist, passPostedBy,
      hempty.1, hempty.2.1, hempty.2.2.1, hempty.2.2.2]

/-- A concrete panel used by witness instantiations. -/
def samplePanel : Panel where
  id := "p1"
  title := "t"
  slug := "s"
  issue := 1
  year := 1967
  artist := "kirby"
  image := "img"
  notes := none
  tags := ["cosmic"]
  postedBy := "u"
  addedAt := 0
  height := 100
  width := 100
  phash := "aa"
  ahash := ""
  dhash := ""
  dominantColors := none
  colorfulness := none

/-- Witness for C6: at a concrete panel list and the empty filter selection,
the no-active-selection hypothesis is discharged and the input comes back
unchanged. -/
theorem c6_applyFilters_witness :
    applyFilters [samplePanel] EMPTY_FILTERS = [samplePanel] :=
  (c6_applyFilters [samplePanel] EMPTY_FILTERS).2.2
    (by simp [hasActiveFilters, EMPTY_FILTERS])

/-! ## Claim C1 — `computeFacets` -/

/-- **C1.** `computeFacets` uses cross-dimensional counting: a panel
contributes to dimension D's count table iff it satisfies every *other*
active dimension's filter, regardless of D's own filter; a contributing
panel adds 1 to its decade label, 1 to its artist label, 1 to its postedBy
label, and 1 to each of its tags. -/
theorem c1_computeFacets (panels : List Panel) (f : Filters) (label : String) :
    (computeFacets panels f).decadeCounts label
        = (panels.filter (fun p =>
            decide ((passArtist f p ∧ passTags f p ∧ passPostedBy f p)
              ∧ getDecade p.year = label))).length
  ∧ (computeFacets panels f).tagCounts label
        = ((panels.filter (fun p =>
            decide (passArtist f p ∧ passDecade f p ∧ passPostedBy f p))).map
            (fun p => p.tags.count label)).sum
  ∧ (computeFacets panels f).artistCounts label
        = (panels.filter (fun p =>
            decide ((passTags f p ∧ passDecade f p ∧ passPostedBy f p)
              ∧ p.artist = label))).length
  ∧ (computeFacets panels f).postedByCounts label
        = (panels.filter (fun p =>
            decide ((passTags f p ∧ passDecade f p ∧ passArtist f p)
              ∧ p.postedBy = label))).length := by
  unfold computeFacets
  refine ⟨?_, ?_, ?_, ?_⟩
  · rw [facets_decade_proj]
    exact (foldl_bump_count panels _ _ _ label).trans (by simp)
  · rw [facets_tag_proj]
    exact (foldl_bumpTags_count panels _ _ label).trans (by simp)
  · rw [facets_artist_proj]
    exact (foldl_bump_count panels _ _ _ label).trans (by simp)
  · rw [facets_postedBy_proj]
    exact (foldl_bump_count panels _ _ _ label).trans (by simp)

/-! ## Helper lemmas: sorting -/

theorem pickNearest_eq_none {α : Type} (d : α → ℕ) (l : List α) :
    pickNearest d l = none ↔ l = [] := by
  cases l with
  | nil => simp [pickNearest]
  | cons x xs =>
    simp only [pickNearest]
    cases pickNearest d xs with
    | none => simp
    | some yys =>
      obtain ⟨y, ys⟩ := yys
      by_cases h : d y < d x <;> simp [h]

theorem pickNearest_spec {α : Type} (d : α → ℕ) :
    ∀ (l : List α) (y : α) (ys : List α), pickNearest d l = some (y, ys) →
      ∃ pre post, l = pre ++ y :: post ∧ ys = pre ++ post
        ∧ (∀ x ∈ pre, d y < d x) ∧ (∀ x ∈ l, d y ≤ d x) := by
  intro l
  induction l with
  | nil => intro y ys h; simp [pickNearest] at h
  | cons x xs ih =>
    intro y ys h
    simp only [pickNearest] at h
    cases hxs : pickNearest d xs with
    | none =>
      rw [hxs] at h
      obtain ⟨rfl, rfl⟩ : x = y ∧ ([] : List α) = ys := by
        simpa using h
      have hnil : xs = [] := (pickNearest_eq_none d xs).1 hxs
      subst hnil
      exact ⟨[], [], rfl, rfl, by simp, by simp⟩
    | some yys =>
      obtain ⟨y', ys'⟩ := yys
      rw [hxs] at h
      dsimp only at h
      obtain ⟨pre', post', hl', hys', hstrict', hmin'⟩ := ih y' ys' hxs
      by_cases hlt : d y' < d x
      · rw [if_pos hlt] at h
        obtain ⟨rfl, rfl⟩ : y' = y ∧ x :: ys' = ys := by simpa using h
        refine ⟨x :: pre', post', by simp [hl'], by simp [hys'], ?_, ?_⟩
        · intro z hz
          rcases List.mem_cons.1 hz with rfl | hz
          · exact hlt
          · exact hstrict' z hz
        · intro z hz
          rcases List.mem_cons.1 hz with rfl | hz
          · exact Nat.le_of_lt hlt
          · exact hmin' z hz
      · rw [if_neg hlt] at h
        obtain ⟨rfl, rfl⟩ : x = y ∧ xs = ys := by simpa using h
        refine ⟨[], xs, rfl, rfl, by simp, ?_⟩
        intro z hz
        rcases List.mem_cons.1 hz with rfl | hz
        · exact Nat.le_refl _
        · exact Nat.le_trans (Nat.le_of_not_lt hlt) (hmin' z hz)

/-- The greedy nearest-neighbour walk, written from its specification: at each
step the next element is one of the remaining elements, every element placed
*before* it in the remaining order is strictly farther from the current
element (so it is the earliest minimiser), no remaining element is strictly
closer, and the walk continues from it on the rest. -/
inductive IsGreedyWalk (d : Panel → Panel → ℕ) : Panel → List Panel → List Panel → Prop where
  | nil (cur : Panel) : IsGreedyWalk d cur [] []
  | step (cur y : Panel) (pre post out : List Panel)
      (hstrict : ∀ x ∈ pre, d cur y < d cur x)
      (hmin : ∀ x ∈ pre ++ y :: post, d cur y ≤ d cur x)
      (hrec : IsGreedyWalk d y (pre ++ post) out) :
      IsGreedyWalk d cur (pre ++ y :: post) (y :: out)

theorem nnChain_greedy (h : Panel → String) :
    ∀ (n : ℕ) (cur : Panel) (rest : List Panel), rest.length = n →
      IsGreedyWalk (fun a b => hammingDistanceHex (h a) (h b)) cur rest
        (nnChain h n cur rest) := by
  intro n
  induction n with
  | zero =>
    intro cur rest hlen
    rw [List.length_eq_zero] at hlen
    subst hlen
    exact IsGreedyWalk.nil cur
  | succ n ih =>
    intro cur rest hlen
    have hne : rest ≠ [] := by
      intro hcon; rw [hcon] at hlen; simp at hlen
    obtain ⟨y, ys, hpick⟩ : ∃ y ys,
        pickNearest (fun q => hammingDistanceHex (h cur) (h q)) rest = some (y, ys) := by
      cases hp : pickNearest (fun q => hammingDistanceHex (h cur) (h q)) rest with
      | none => exact absurd ((pickNearest_eq_none _ rest).1 hp) hne
      | some yys =>
        obtain ⟨y1, y2⟩ := yys
        exact ⟨y1, y2, rfl⟩
    obtain ⟨pre, post, hrest, hys, hstrict, hmin⟩ := pickNearest_spec _ rest y ys hpick
    have hlys : ys.length = n := by
      have : rest.length = ys.length + 1 := by
        rw [hrest, hys]
        simp only [List.length_append, List.length_cons]
        omega
      omega
    have hout : nnChain h (n + 1) cur rest = y :: nnChain h n y ys := by
      simp only [nnChain, hpick]
    rw [hout, hrest]
    subst hys
    exact IsGreedyWalk.step cur y pre post _ hstrict (hrest ▸ hmin) (ih y _ hlys)

theorem isGreedyWalk_perm (d : Panel → Panel → ℕ) :
    ∀ {cur l out}, IsGreedyWalk d cur l out → out.Perm l := by
  intro cur l out hwalk
  induction hwalk with
  | nil => exact List.Perm.refl _
  | step cur y pre post out hstrict hmin hrec ih =>
    exact (ih.cons y).trans List.perm_middle.symm

theorem oldestLe_sorted (l : List Panel) :
    List.Pairwise (fun a b : Panel => a.addedAt ≤ b.addedAt) (l.mergeSort oldestLe) := by
  have hs := @List.sorted_mergeSort Panel oldestLe
    (fun a b c hab hbc => by
      unfold oldestLe at *
      rw [decide_eq_true_eq] at *
      omega)
    (fun a b => by
      unfold oldestLe
      rcases Int.le_total a.addedAt b.addedAt with h | h <;> simp [h])
    l
  exact hs.imp (fun {a b} hab => by
    unfold oldestLe at hab
    rwa [decide_eq_true_eq] at hab)

theorem hashSort_reduce (panels : List Panel) (h : Panel → String)
    (hlen : ¬ panels.length ≤ 1) :
    hashSort panels h =
      match panels.filter (hasHashB h) with
      | [] => (panels.filter (fun p => !(hasHashB h p))).mergeSort oldestLe
      | x :: rest => x :: (nnChain h rest.length x rest
          ++ (panels.filter (fun p => !(hasHashB h p))).mergeSort oldestLe) := by
  unfold hashSort
  rw [if_neg hlen, List.partition_eq_filter_filter]
  rfl

theorem hashSort_spec (panels : List Panel) (h : Panel → String) :
    (panels.filter (hasHashB h) = [] →
      hashSort panels h = (panels.filter (fun p => !(hasHashB h p))).mergeSort oldestLe)
  ∧ (∀ x rest, panels.filter (hasHashB h) = x :: rest →
      ∃ walk, IsGreedyWalk (fun a b => hammingDistanceHex (h a) (h b)) x rest walk
        ∧ hashSort panels h
            = x :: (walk ++ (panels.filter (fun p => !(hasHashB h p))).mergeSort oldestLe)) := by
  by_cases hlen : panels.length ≤ 1
  · rcases panels with _ | ⟨p, _ | ⟨q, l⟩⟩
    · refine ⟨fun _ => ?_, fun x rest hcon => ?_⟩
      · simp [hashSort]
      · simp at hcon
    · by_cases hh : hasHashB h p
      · refine ⟨fun h0 => ?_, fun x rest heq => ?_⟩
        · rw [List.filter_cons] at h0
          simp [hh] at h0
        · rw [List.filter_cons] at heq
          simp only [hh, if_true, List.filter_nil] at heq
          obtain ⟨rfl, rfl⟩ : p = x ∧ ([] : List Panel) = rest := by
            simpa using heq
          refine ⟨[], IsGreedyWalk.nil _, ?_⟩
          simp [hashSort, List.filter_cons, hh]
      · refine ⟨fun _ => ?_, fun x rest heq => ?_⟩
        · simp [hashSort, List.filter_cons, hh, List.mergeSort_singleton]
        · rw [List.filter_cons] at heq
          simp [hh] at heq
    · exfalso
      simp at hlen
  · rw [hashSort_reduce panels h hlen]
    refine ⟨fun h0 => ?_, fun x rest heq => ?_⟩
    · rw [h0]
    · rw [heq]
      exact ⟨nnChain h rest.length x rest,
        nnChain_greedy h rest.length x rest rfl, rfl⟩

/-! ## Claim C2 — hash-mode sorting -/

/-- **C2.** For every hash mode, `sortPanels` appends the panels lacking the
selected hash, ordered by `addedAt` ascending, after all hashed panels, and
orders the hashed panels as the greedy nearest-neighbour walk seeded with the
first hashed panel in incoming order, each step appending the earliest
remaining panel of minimum Hamming distance to the most recently placed
panel. -/
theorem c2_sortPanels_hash (panels : List Panel) (m : SortMode)
    (hm : m = .phash ∨ m = .ahash ∨ m = .dhash) :
    (panels.filter (hasHashB (hashFieldOf m)) = [] →
      sortPanels panels m
        = (panels.filter (fun p => !(hasHashB (hashFieldOf m) p))).mergeSort oldestLe)
  ∧ (∀ x rest, panels.filter (hasHashB (hashFieldOf m)) = x :: rest →
      ∃ walk,
        IsGreedyWalk
          (fun a b => hammingDistanceHex (hashFieldOf m a) (hashFieldOf m b)) x rest walk
        ∧ sortPanels panels m
            = x :: (walk
                ++ (panels.filter (fun p => !(hasHashB (hashFieldOf m) p))).mergeSort oldestLe))
  ∧ List.Pairwise (fun a b : Panel => a.addedAt ≤ b.addedAt)
      ((panels.filter (fun p => !(hasHashB (hashFieldOf m) p))).mergeSort oldestLe)
  ∧ ((panels.filter (fun p => !(hasHashB (hashFieldOf m) p))).mergeSort oldestLe).Perm
      (panels.filter (fun p => !(hasHashB (hashFieldOf m) p))) := by
  rcases hm with rfl | rfl | rfl <;>
    exact ⟨(hashSort_spec panels _).1, (hashSort_spec panels _).2,
      oldestLe_sorted _, List.mergeSort_perm _ _⟩

/-- Witness for C2: on a concrete one-panel list whose panel carries a
`phash`, the hash-mode hypothesis and the non-empty-filter hypothesis are
discharged and the walk exists. -/
theorem c2_sortPanels_hash_witness :
    ∃ walk,
      IsGreedyWalk
        (fun a b => hammingDistanceHex (hashFieldOf .phash a) (hashFieldOf .phash b))
        samplePanel [] walk
      ∧ sortPanels [samplePanel] .phash
          = samplePanel :: (walk
              ++ (([samplePanel].filter
                    (fun p => !(hasHashB (hashFieldOf .phash) p))).mergeSort oldestLe)) :=
  (c2_sortPanels_hash [samplePanel] .phash (Or.inl rfl)).2.1 samplePanel [] rfl

/-! ## Claim C9 — Hamming distance -/

theorem foldl_add_congr (f g : ℕ → ℕ) (hfg : ∀ i, f i = g i) :
    ∀ (l : List ℕ) (acc : ℕ),
      l.foldl (fun d i => d + f i) acc = l.foldl (fun d i => d + g i) acc := by
  intro l
  induction l with
  | nil => intro acc; rfl
  | cons i l ih => intro acc; simp only [List.foldl_cons, hfg, ih]

theorem foldl_add_zero (f : ℕ → ℕ) (hf : ∀ i, f i = 0) :
    ∀ (l : List ℕ) (acc : ℕ), l.foldl (fun d i => d + f i) acc = acc := by
  intro l
  induction l with
  | nil => intro acc; rfl
  | cons i l ih =>
    intro acc
    rw [List.foldl_cons, hf i, Nat.add_zero]
    exact ih acc

/-- **C9.** The hex-string Hamming distance is symmetric, zero on two
identical strings, and `hammingDistanceHex "f0" "0f" = 8`. -/
theorem c9_hammingDistanceHex :
    (∀ a b : String, hammingDistanceHex a b = hammingDistanceHex b a)
  ∧ (∀ a : String, hammingDistanceHex a a = 0)
  ∧ hammingDistanceHex "f0" "0f" = 8 := by
  refine ⟨?_, ?_, by decide⟩
  · intro a b
    unfold hammingDistanceHex
    rw [Nat.max_comm]
    exact foldl_add_congr _ _
      (fun i => by rw [Nat.xor_comm]) _ 0
  · intro a
    unfold hammingDistanceHex
    exact foldl_add_zero _ (fun i => by rw [Nat.xor_self]; rfl) _ 0

/-! ## Helper lemmas: color sorting -/

theorem colorLe_eq_true_iff (a b : Panel) : colorLe a b = true ↔ colorLeP a b := by
  unfold colorLe
  exact @decide_eq_true_iff _ (Classical.propDecidable _)

theorem colorLeP_trans (a b c : Panel) (hab : colorLeP a b) (hbc : colorLeP b c) :
    colorLeP a c := by
  unfold colorLeP at *
  rcases ha : colorSortKey a with _ | ka <;> rcases hb : colorSortKey b with _ | kb <;>
    rcases hc : colorSortKey c with _ | kc <;>
    simp only [ha, hb, hc] at hab hbc ⊢
  all_goals try omega
  rcases hab with h1 | ⟨he1, hA⟩ <;> rcases hbc with h2 | ⟨he2, hB⟩
  · exact Or.inl (h1.trans h2)
  · exact Or.inl (lt_of_lt_of_le h1 (le_of_eq he2))
  · exact Or.inl (lt_of_le_of_lt (le_of_eq he1) h2)
  · exact Or.inr ⟨he1.trans he2, hA.trans hB⟩

theorem colorLeP_total (a b : Panel) : colorLeP a b ∨ colorLeP b a := by
  unfold colorLeP
  rcases ha : colorSortKey a with _ | ka <;> rcases hb : colorSortKey b with _ | kb <;>
    simp only [ha, hb]
  · omega
  · exact Or.inr trivial
  · exact Or.inl trivial
  · rcases lt_trichotomy ka kb with h | h | h
    · exact Or.inl (Or.inl h)
    · rcases Int.le_total a.addedAt b.addedAt with h' | h'
      · exact Or.inl (Or.inr ⟨h, h'⟩)
      · exact Or.inr (Or.inr ⟨h.symm, h'⟩)
    · exact Or.inr (Or.inl h)

theorem colorLe_sorted (l : List Panel) :
    List.Pairwise colorLeP (l.mergeSort colorLe) := by
  have hs := @List.sorted_mergeSort Panel colorLe
    (fun a b c hab hbc => (colorLe_eq_true_iff a c).2
      (colorLeP_trans a b c ((colorLe_eq_true_iff a b).1 hab)
        ((colorLe_eq_true_iff b c).1 hbc)))
    (fun a b => by
      rcases colorLeP_total a b with h | h
      · simp [(colorLe_eq_true_iff a b).2 h]
      · simp [(colorLe_eq_true_iff b a).2 h])
    l
  exact hs.imp (fun {a b} hab => (colorLe_eq_true_iff a b).1 hab)

theorem colorSort_reduce (panels : List Panel) (hlen : ¬ panels.length ≤ 1) :
    colorSort panels
      = (panels.filter chromaticB).mergeSort colorLe
        ++ (panels.filter (fun p => !chromaticB p)).mergeSort colorLe := by
  unfold colorSort
  rw [if_neg hlen, List.partition_eq_filter_filter]
  rfl

/-! ## Claim C5 — color-mode sorting -/

/-- **C5.** Color-mode sorting partitions panels into chromatic
(`colorfulness ≥ 5`, absent colorfulness treated as `0`) and achromatic
groups, emits the chromatic group first, and orders each group by the
composite key (hue angle of the most dominant LAB color normalised into
`[0, 2π)`, times 1000, plus `L`), with keyless panels last within their
group and `addedAt` ascending as the tiebreak for missing or exactly equal
keys; colorfulness exactly `5` is chromatic and `4.999` is achromatic. -/
theorem c5_sortPanels_color (panels : List Panel) :
    sortPanels panels .color
      = (panels.filter chromaticB).mergeSort colorLe
        ++ (panels.filter (fun p => !chromaticB p)).mergeSort colorLe
  ∧ List.Pairwise colorLeP ((panels.filter chromaticB).mergeSort colorLe)
  ∧ List.Pairwise colorLeP ((panels.filter (fun p => !chromaticB p)).mergeSort colorLe)
  ∧ ((panels.filter chromaticB).mergeSort colorLe).Perm (panels.filter chromaticB)
  ∧ ((panels.filter (fun p => !chromaticB p)).mergeSort colorLe).Perm
      (panels.filter (fun p => !chromaticB p))
  ∧ (∀ p : Panel, p.colorfulness = some 5 → chromaticB p = true)
  ∧ (∀ p : Panel, p.colorfulness = some (4999 / 1000) → chromaticB p = false) := by
  refine ⟨?_, colorLe_sorted _, colorLe_sorted _,
    List.mergeSort_perm _ _, List.mergeSort_perm _ _, ?_, ?_⟩
  · show colorSort panels = _
    by_cases hlen : panels.length ≤ 1
    · rcases panels with _ | ⟨p, _ | ⟨q, l⟩⟩
      · simp [colorSort]
      · by_cases hp : chromaticB p <;>
          simp [colorSort, List.filter_cons, hp, List.mergeSort_singleton]
      · exfalso
        simp at hlen
    · exact colorSort_reduce panels hlen
  · intro p hp
    unfold chromaticB COLORFULNESS_THRESHOLD
    rw [hp]
    simp
  · intro p hp
    unfold chromaticB COLORFULNESS_THRESHOLD
    rw [hp]
    norm_num

/-- Witness for C5's boundary implications: a panel with colorfulness
exactly `5` is chromatic and one with `4.999` is not. -/
theorem c5_sortPanels_color_witness :
    chromaticB { samplePanel with colorfulness := some 5 } = true
  ∧ chromaticB { samplePanel with colorfulness := some (4999 / 1000) } = false :=
  ⟨(c5_sortPanels_color []).2.2.2.2.2.1 _ rfl,
   (c5_sortPanels_color []).2.2.2.2.2.2 _ rfl⟩

/-! ## Claim C7 — `sortPanels` is a permutation -/

theorem hashSort_perm (panels : List Panel) (h : Panel → String) :
    (hashSort panels h).Perm panels := by
  obtain ⟨h1, h2⟩ := hashSort_spec panels h
  cases hwh : panels.filter (hasHashB h) with
  | nil =>
    rw [h1 hwh]
    refine (List.mergeSort_perm _ _).trans ?_
    have hap := List.filter_append_perm (hasHashB h) panels
    rw [hwh] at hap
    simpa using hap
  | cons x rest =>
    obtain ⟨walk, hwalk, heq⟩ := h2 x rest hwh
    rw [heq]
    have hperm :
        (walk ++ (panels.filter (fun p => !(hasHashB h p))).mergeSort oldestLe).Perm
          (rest ++ panels.filter (fun p => !(hasHashB h p))) :=
      (isGreedyWalk_perm _ hwalk).append (List.mergeSort_perm _ _)
    refine (hperm.cons x).trans ?_
    have hap := List.filter_append_perm (hasHashB h) panels
    rw [hwh] at hap
    exact hap

theorem colorSort_perm (panels : List Panel) : (colorSort panels).Perm panels := by
  by_cases hlen : panels.length ≤ 1
  · unfold colorSort
    rw [if_pos hlen]
  · rw [colorSort_reduce panels hlen]
    exact ((List.mergeSort_perm _ _).append (List.mergeSort_perm _ _)).trans
      (List.filter_append_perm _ _)

/-- **C7.** For every panel list and every sort mode, `sortPanels` returns a
permutation of its input: same length, same multiset of panels, and same
multiset of panel ids — nothing added, dropped or duplicated. -/
theorem c7_sortPanels_perm (panels : List Panel) (mode : SortMode) :
    (sortPanels panels mode).Perm panels
  ∧ (sortPanels panels mode).length = panels.length
  ∧ ((sortPanels panels mode).map Panel.id).Perm (panels.map Panel.id) := by
  have hperm : (sortPanels panels mode).Perm panels := by
    cases mode with
    | newest => exact List.mergeSort_perm _ _
    | oldest => exact List.mergeSort_perm _ _
    | phash => exact hashSort_perm panels _
    | ahash => exact hashSort_perm panels _
    | dhash => exact hashSort_perm panels _
    | color => exact colorSort_perm panels
  exact ⟨hperm, hperm.length_eq, hperm.map _⟩

/-! ## Helper lemmas: masonry layout -/

theorem minIdx_succ (g : ℕ → ℚ) (n : ℕ) :
    minIdx g (n + 1) = if g n < g (minIdx g n) then n else minIdx g n := by
  unfold minIdx
  rw [List.range_succ, List.foldl_append]
  rfl

theorem minIdx_lt (g : ℕ → ℚ) : ∀ n, 0 < n → minIdx g n < n := by
  intro n
  induction n with
  | zero => intro h; exact absurd h (lt_irrefl 0)
  | succ n ih =>
    intro _
    rw [minIdx_succ]
    by_cases hlt : g n < g (minIdx g n)
    · rw [if_pos hlt]
      exact Nat.lt_succ_self n
    · rw [if_neg hlt]
      rcases Nat.eq_zero_or_pos n with rfl | hn
      · exact Nat.lt_succ_self 0
      · exact Nat.lt_succ_of_lt (ih hn)

theorem minIdx_le (g : ℕ → ℚ) : ∀ n i, i < n → g (minIdx g n) ≤ g i := by
  intro n
  induction n with
  | zero => intro i h; exact absurd h (Nat.not_lt_zero i)
  | succ n ih =>
    intro i hi
    rw [minIdx_succ]
    by_cases hlt : g n < g (minIdx g n)
    · rw [if_pos hlt]
      rcases Nat.lt_succ_iff_lt_or_eq.1 hi with h | rfl
      · exact le_trans (le_of_lt hlt) (ih i h)
      · exact le_refl _
    · rw [if_neg hlt]
      rcases Nat.lt_succ_iff_lt_or_eq.1 hi with h | rfl
      · exact ih i h
      · exact le_of_not_lt hlt

theorem minIdx_first (g : ℕ → ℚ) : ∀ n i, i < minIdx g n → g (minIdx g n) < g i := by
  intro n
  induction n with
  | zero => intro i h; exact absurd h (Nat.not_lt_zero i)
  | succ n ih =>
    intro i
    rw [minIdx_succ]
    by_cases hlt : g n < g (minIdx g n)
    · rw [if_pos hlt]
      intro hi
      rcases lt_or_ge i (minIdx g n) with h | h
      · exact hlt.trans (ih i h)
      · have hin : i < n := hi
        exact lt_of_lt_of_le hlt (minIdx_le g n i hin)
    · rw [if_neg hlt]
      exact ih i

/-- The panels carried by a list of placed items, in placement order. -/
def panelsOf (items : List PlacedItem) : List Panel :=
  items.filterMap PlacedItem.panelOf

theorem panelsOf_append (a b : List PlacedItem) :
    panelsOf (a ++ b) = panelsOf a ++ panelsOf b := by
  unfold panelsOf
  rw [List.filterMap_append]

/-- Filler discipline: every filler block is immediately followed by the
placement of a panel satisfying `wideP` (in particular no list ends in a
filler). -/
def fillerOk (wideP : Panel → Prop) : List PlacedItem → Prop
  | [] => True
  | .filler _ _ _ _ _ :: rest =>
      (∃ p x y w tl, rest = PlacedItem.panel p x y w :: tl ∧ wideP p) ∧ fillerOk wideP rest
  | .panel _ _ _ _ :: rest => fillerOk wideP rest

theorem fillerOk_append (wideP : Panel → Prop) :
    ∀ A B, fillerOk wideP A → fillerOk wideP B → fillerOk wideP (A ++ B) := by
  intro A
  induction A with
  | nil => intro B _ hB; simpa using hB
  | cons it A' ih =>
    intro B hA hB
    cases it with
    | panel p x y w =>
      simp only [fillerOk, List.cons_append] at hA ⊢
      exact ih B hA hB
    | filler k x y w h =>
      simp only [fillerOk, List.cons_append] at hA ⊢
      obtain ⟨⟨p, px, py, pw, tl, hA', hwide⟩, hrest⟩ := hA
      subst hA'
      exact ⟨⟨p, px, py, pw, tl ++ B, by simp, hwide⟩, ih B hrest hB⟩

/-- The wide-vs-normal classification used by `layoutStep`. -/
def widePred (colCount : ℕ) (p : Panel) : Prop := isWide p ∧ 2 ≤ colCount

/-- One `layoutStep` appends a block: at most one filler followed by the
placement of the processed panel. -/
theorem layoutStep_block (cc : ℕ) (cw : ℚ) (st : LayoutState) (ip : ℕ × Panel) :
    ∃ block, (layoutStep cc cw st ip).items = st.items ++ block
      ∧ panelsOf block = [ip.2]
      ∧ fillerOk (widePred cc) block := by
  unfold layoutStep
  by_cases hw : isWide ip.2 ∧ 2 ≤ cc
  · rw [if_pos hw]
    dsimp only
    rcases lt_trichotomy
        (hAt st.heights (bestPairStart st.heights cc))
        (hAt st.heights (bestPairStart st.heights cc + 1))
      with hlt | heq | hgt
    · rw [max_eq_right (le_of_lt hlt), if_pos hlt, if_neg (lt_irrefl _)]
      simp only [List.append_assoc, List.append_nil, List.nil_append, List.singleton_append]
      refine ⟨_, rfl, ?_, ?_⟩
      · simp [panelsOf, PlacedItem.panelOf]
      · exact ⟨⟨ip.2, _, _, _, [], rfl, hw⟩, trivial⟩
    · rw [heq, max_self, if_neg (lt_irrefl _), if_neg (lt_irrefl _)]
      simp only [List.append_assoc, List.append_nil, List.nil_append, List.singleton_append]
      refine ⟨_, rfl, ?_, trivial⟩
      simp [panelsOf, PlacedItem.panelOf]
    · rw [max_eq_left (le_of_lt hgt), if_neg (lt_irrefl _), if_pos hgt]
      simp only [List.append_assoc, List.append_nil, List.nil_append, List.singleton_append]
      refine ⟨_, rfl, ?_, ?_⟩
      · simp [panelsOf, PlacedItem.panelOf]
      · exact ⟨⟨ip.2, _, _, _, [], rfl, hw⟩, trivial⟩
  · rw [if_neg hw]
    dsimp only
    refine ⟨_, rfl, ?_, trivial⟩
    simp [panelsOf, PlacedItem.panelOf]

theorem layout_fold (cc : ℕ) (cw : ℚ) :
    ∀ (l : List (ℕ × Panel)) (st : LayoutState),
      panelsOf ((l.foldl (layoutStep cc cw) st).items)
          = panelsOf st.items ++ l.map Prod.snd
      ∧ (fillerOk (widePred cc) st.items →
          fillerOk (widePred cc) ((l.foldl (layoutStep cc cw) st).items)) := by
  intro l
  induction l with
  | nil => intro st; simp
  | cons ip l ih =>
    intro st
    obtain ⟨block, hb, hpb, hfb⟩ := layoutStep_block cc cw st ip
    constructor
    · rw [List.foldl_cons, (ih _).1, hb, panelsOf_append, hpb]
      simp
    · intro hst
      refine (ih _).2 ?_
      rw [hb]
      exact fillerOk_append _ _ _ hst hfb

theorem computeLayout_panelsOf (panels : List Panel) (cc : ℕ) (w : ℚ) (ihs : List ℚ) :
    panelsOf (computeLayout panels cc w ihs).1 = panels := by
  unfold computeLayout computeLayoutState
  dsimp only
  rw [(layout_fold cc (colWidthOf cc w) panels.enum ⟨ihs, []⟩).1]
  simp [panelsOf, List.enum_map_snd]

/-! ## Claim C10 — layout preserves the panel sequence -/

/-- **C10.** For every panel list, column count ≥ 1, container width and
initial-heights vector of matching length, the panel-kind items of
`computeLayout` carry each input panel exactly once, in input order, and
every filler item is immediately followed by the placement of a wide panel
(wide in the sense of the step: aspect ≥ 1.2 and at least two columns). -/
theorem c10_computeLayout_items (panels : List Panel) (cc : ℕ) (w : ℚ)
    (ihs : List ℚ) (_hcc : 1 ≤ cc) (_hlen : ihs.length = cc) :
    panelsOf (computeLayout panels cc w ihs).1 = panels
  ∧ fillerOk (widePred cc) (computeLayout panels cc w ihs).1 := by
  refine ⟨computeLayout_panelsOf panels cc w ihs, ?_⟩
  unfold computeLayout computeLayoutState
  dsimp only
  exact (layout_fold cc (colWidthOf cc w) panels.enum ⟨ihs, []⟩).2 trivial

/-- Witness for C10 at a concrete one-panel, one-column layout. -/
theorem c10_computeLayout_items_witness :
    panelsOf (computeLayout [samplePanel] 1 0 [0]).1 = [samplePanel]
  ∧ fillerOk (widePred 1) (computeLayout [samplePanel] 1 0 [0]).1 :=
  c10_computeLayout_items [samplePanel] 1 0 [0] (by decide) (by decide)

/-! ## Claim C4 — zero-width container -/

unseal Rat.add Rat.mul Rat.inv Rat.sub in
/-- **C4 counterexample.** With one panel, one column, a zero-width
container and zero initial height, `computeLayout` does *not* produce an
empty placement list with zero total height: it places the panel and
reports total height `4` (one gap). -/
theorem c4_counterexample :
    (computeLayout [samplePanel] 1 0 [0]).2 = 4
  ∧ ¬((computeLayout [samplePanel] 1 0 [0]).1 = []
      ∧ (computeLayout [samplePanel] 1 0 [0]).2 = 0) := by
  refine ⟨by decide, fun hcon => ?_⟩
  have h4 : (computeLayout [samplePanel] 1 0 [0]).2 = 4 := by decide
  rw [hcon.2] at h4
  exact absurd h4 (by norm_num)

/-- **C4 (amended).** `computeLayout` is a total function and never throws,
but it has no "not ready" guard: for every non-empty panel list it emits one
placement per panel even when the container width is zero (or otherwise
degenerate), so the placement list is never empty. -/
theorem c4_amended_no_guard (panels : List Panel) (cc : ℕ) (w : ℚ) (ihs : List ℚ)
    (hne : panels ≠ []) :
    (computeLayout panels cc w ihs).1 ≠ [] := by
  intro hcon
  have hproj := computeLayout_panelsOf panels cc w ihs
  rw [hcon] at hproj
  exact hne hproj.symm

/-- Witness for C4's amended statement at the zero-width input. -/
theorem c4_amended_no_guard_witness :
    (computeLayout [samplePanel] 1 0 [0]).1 ≠ [] :=
  c4_amended_no_guard [samplePanel] 1 0 [0] (List.cons_ne_nil _ _)

/-! ## Claim C8 — five-panel scenario -/

/-- One of the five equal, non-wide panels of the C8 scenario
(aspect 1.0: width = height = 100). -/
def c8Panel (s : String) : Panel := { samplePanel with id := s }

/-- The C8 scenario: 5 panels, 3 columns, column width 100
(container width `3*100 + 2*GAP = 308`), all-zero initial heights. -/
def c8Panels : List Panel :=
  [c8Panel "a", c8Panel "b", c8Panel "c", c8Panel "d", c8Panel "e"]

unseal Rat.add Rat.mul Rat.inv Rat.sub in
/-- **C8 counterexample.** In the five-panel scenario the final column
heights are *not* `[200+gaps, 100+gap, 100+gap]` as the claim states. -/
theorem c8_counterexample :
    (computeLayoutState c8Panels 3 308 [0, 0, 0]).heights
      ≠ [200 + 2 * 4, 100 + 4, 100 + 4] := by
  decide

unseal Rat.add Rat.mul Rat.inv Rat.sub in
/-- **C8 (amended).** The five panels are assigned to columns in the order
0,1,2,0,1 (x-offsets `[0,104,208,0,104]` at column width 100 and gap 4,
y-offsets `[0,0,0,104,104]`), but columns 0 *and* 1 each receive two panels,
so the final heights are `[200+2·gap, 200+2·gap, 100+gap] = [208,208,104]`. -/
theorem c8_amended :
    ((computeLayoutState c8Panels 3 308 [0, 0, 0]).items.map PlacedItem.xPos
      = [colX 100 0, colX 100 1, colX 100 2, colX 100 0, colX 100 1])
  ∧ ((computeLayoutState c8Panels 3 308 [0, 0, 0]).items.map PlacedItem.yPos
      = [0, 0, 0, 104, 104])
  ∧ (computeLayoutState c8Panels 3 308 [0, 0, 0]).heights
      = [200 + 2 * 4, 200 + 2 * 4, 100 + 4] := by
  exact ⟨by decide, by decide, by decide⟩

theorem hAt_set_set (l : List ℚ) (i : ℕ) (v : ℚ) (h : i + 1 < l.length) :
    hAt ((l.set i v).set (i + 1) v) i = v
  ∧ hAt ((l.set i v).set (i + 1) v) (i + 1) = v := by
  unfold hAt
  constructor
  · rw [List.getD_eq_getElem?_getD, List.getElem?_set_ne (by omega : i + 1 ≠ i),
      List.getElem?_set_self (by omega)]
    rfl
  · rw [List.getD_eq_getElem?_getD,
      List.getElem?_set_self (by rw [List.length_set]; omega)]
    rfl

/-! ## Claim C3 — wide-panel placement -/

/-- **C3.** A panel is wide exactly when its aspect (width/height when both
positive, else 0.75) is at least 1.2 and there are at least two columns.  A
wide panel goes over the adjacent pair with the smallest current maximum
height (leftmost on ties); a filler of height (taller − shorter) is emitted
in the shorter column (none when equal); the panel is placed at y = the
taller height with width `2·colWidth + gap`; and both spanned height
trackers advance to the same value, taller + spanWidth/aspect + gap, so the
two columns end the step with equal heights.  A non-wide panel instead gets
a single-column placement of width `colWidth`. -/
theorem c3_widePlacement (cc : ℕ) (cw : ℚ) (st : LayoutState) (idx : ℕ)
    (panel : Panel) (hlen : st.heights.length = cc) (hcc : 2 ≤ cc) :
    (getAspect panel
        = if 0 < panel.width ∧ 0 < panel.height then panel.width / panel.height
          else 3 / 4)
  ∧ (¬ isWide panel → ∃ c,
      (layoutStep cc cw st (idx, panel)).items
        = st.items ++ [PlacedItem.panel panel (colX cw c) (hAt st.heights c) cw])
  ∧ (isWide panel →
      bestPairStart st.heights cc + 1 < cc
      ∧ (∀ t, t + 1 < cc →
          pairMax st.heights (bestPairStart st.heights cc) ≤ pairMax st.heights t)
      ∧ (∀ t, t < bestPairStart st.heights cc →
          pairMax st.heights (bestPairStart st.heights cc) < pairMax st.heights t)
      ∧ (hAt st.heights (bestPairStart st.heights cc)
            < hAt st.heights (bestPairStart st.heights cc + 1) →
          (layoutStep cc cw st (idx, panel)).items
            = st.items
              ++ [PlacedItem.filler ("filler-" ++ panel.id ++ "-L")
                    (colX cw (bestPairStart st.heights cc))
                    (hAt st.heights (bestPairStart st.heights cc)) cw
                    (hAt st.heights (bestPairStart st.heights cc + 1)
                      - hAt st.heights (bestPairStart st.heights cc)),
                  PlacedItem.panel panel (colX cw (bestPairStart st.heights cc))
                    (hAt st.heights (bestPairStart st.heights cc + 1))
                    (cw * 2 + GAP)])
      ∧ (hAt st.heights (bestPairStart st.heights cc + 1)
            < hAt st.heights (bestPairStart st.heights cc) →
          (layoutStep cc cw st (idx, panel)).items
            = st.items
              ++ [PlacedItem.filler ("filler-" ++ panel.id ++ "-R")
                    (colX cw (bestPairStart st.heights cc + 1))
                    (hAt st.heights (bestPairStart st.heights cc + 1)) cw
                    (hAt st.heights (bestPairStart st.heights cc)
                      - hAt st.heights (bestPairStart st.heights cc + 1)),
                  PlacedItem.panel panel (colX cw (bestPairStart st.heights cc))
                    (hAt st.heights (bestPairStart st.heights cc))
                    (cw * 2 + GAP)])
      ∧ (hAt st.heights (bestPairStart st.heights cc)
            = hAt st.heights (bestPairStart st.heights cc + 1) →
          (layoutStep cc cw st (idx, panel)).items
            = st.items
              ++ [PlacedItem.panel panel (colX cw (bestPairStart st.heights cc))
                    (hAt st.heights (bestPairStart st.heights cc + 1))
                    (cw * 2 + GAP)])
      ∧ (layoutStep cc cw st (idx, panel)).heights
          = (st.heights.set (bestPairStart st.heights cc)
              (pairMax st.heights (bestPairStart st.heights cc)
                + (cw * 2 + GAP) / getAspect panel + GAP)).set
              (bestPairStart st.heights cc + 1)
              (pairMax st.heights (bestPairStart st.heights cc)
                + (cw * 2 + GAP) / getAspect panel + GAP)
      ∧ hAt (layoutStep cc cw st (idx, panel)).heights (bestPairStart st.heights cc)
          = pairMax st.heights (bestPairStart st.heights cc)
            + (cw * 2 + GAP) / getAspect panel + GAP
      ∧ hAt (layoutStep cc cw st (idx, panel)).heights
            (bestPairStart st.heights cc + 1)
          = hAt (layoutStep cc cw st (idx, panel)).heights
              (bestPairStart st.heights cc)) := by
  have hbp : bestPairStart st.heights cc < cc - 1 :=
    minIdx_lt (pairMax st.heights) (cc - 1) (by omega)
  refine ⟨rfl, ?_, ?_⟩
  · intro hnw
    unfold layoutStep
    dsimp only
    rw [if_neg (fun hc => hnw hc.1)]
    exact ⟨_, rfl⟩
  · intro hwide
    have hpos : isWide panel ∧ 2 ≤ cc := ⟨hwide, hcc⟩
    have hs1 : bestPairStart st.heights cc + 1 < st.heights.length := by
      rw [hlen]; omega
    refine ⟨by omega, ?_, ?_, ?_, ?_, ?_, ?_, ?_, ?_⟩
    · intro t ht
      exact minIdx_le (pairMax st.heights) (cc - 1) t (by omega)
    · intro t ht
      exact minIdx_first (pairMax st.heights) (cc - 1) t ht
    · intro hlt
      unfold layoutStep
      dsimp only
      rw [if_pos hpos]
      dsimp only
      rw [max_eq_right (le_of_lt hlt), if_pos hlt, if_neg (lt_irrefl _)]
      simp
    · intro hgt
      unfold layoutStep
      dsimp only
      rw [if_pos hpos]
      dsimp only
      rw [max_eq_left (le_of_lt hgt), if_neg (lt_irrefl _), if_pos hgt]
      simp
    · intro heq
      unfold layoutStep
      dsimp only
      rw [if_pos hpos]
      dsimp only
      rw [heq, max_self, if_neg (lt_irrefl _), if_neg (lt_irrefl _)]
      simp
    · unfold layoutStep
      dsimp only
      rw [if_pos hpos]
      dsimp only
      rfl
    · unfold layoutStep
      dsimp only
      rw [if_pos hpos]
      dsimp only
      exact (hAt_set_set st.heights (bestPairStart st.heights cc) _ hs1).1
    · unfold layoutStep
      dsimp only
      rw [if_pos hpos]
      dsimp only
      exact (hAt_set_set st.heights (bestPairStart st.heights cc) _ hs1).2.trans
        (hAt_set_set st.heights (bestPairStart st.heights cc) _ hs1).1.symm

/-- A concrete wide panel: aspect 300/100 = 3 ≥ 1.2. -/
def wideSamplePanel : Panel := { samplePanel with width := 300 }

unseal Rat.add Rat.mul Rat.inv Rat.sub in
/-- Witness for C3 at two zero-height columns and a wide panel: the chosen
pair start is a valid adjacent pair. -/
theorem c3_widePlacement_witness :
    bestPairStart (⟨[0, 0], []⟩ : LayoutState).heights 2 + 1 < 2 :=
  ((c3_widePlacement 2 100 ⟨[0, 0], []⟩ 0 wideSamplePanel (by decide) (by decide)).2.2
    (by decide)).1
